import Mathlib

/-!
Verification of the Reservoir request-enrichment and persistence pipeline.

This file shallowly embeds the pure core of the Rust sources:
  * `src/utils/mod.rs` — token counting, system-context compression, truncation,
    `get_last_message_in_chat_request`;
  * `src/models/chat_request.rs` and `src/handler/completions.rs` —
    `enrich_chat_request` (the two copies are logically identical) and the
    request handler `handle_with_partition`;
  * `src/repos/message.rs` and `src/repos/message/neo4j_message.rs` —
    `save_message_node` (persistence effect on the set of stored nodes) and the
    two drafts of `find_similar_messages` (post-processing of the rows returned
    by the vector index);
  * `src/clients/openai/model_info.rs` — the per-model input token limits.

Modelling conventions:
  * The BPE tokenizer (`tiktoken_rs::o200k_base`) is an external library; every
    definition that counts tokens is parameterised by an abstract token counter
    `tk : String → Nat` standing for `|bpe.encode_with_special_tokens(s)|`.
    `tokLen` is a concrete stand-in used for closed evaluations.
  * `f64` cosine scores are modelled as `Rat`: the algorithms only compare
    scores, and `partial_cmp ... unwrap_or(Equal)` on non-NaN floats behaves as
    a linear order.  `f32` embedding vectors are `List Rat`; no algorithm here
    inspects their values.
  * The Neo4j store is abstracted: `save_message_node` acts on the list of
    persisted nodes, and `find_similar_messages` takes the list of
    `(node, score)` rows produced by the vector-index query.
  * Rust's `HashMap` in `find_similar_messages` is modelled as an association
    list; the properties proved are insensitive to iteration order.
  * `Vec::sort_by` is stable, as is `List.mergeSort`.
-/

/-- Wire-level chat message (`src/clients/openai/types.rs` / `src/models/mod.rs`). -/
structure Message where
  role : String
  content : String
deriving DecidableEq

/-- Persisted message node (`src/models/message_node.rs`).  The Rust field
`instance` is a Lean keyword and is rendered `inst`. -/
structure MessageNode where
  trace_id : String
  partition : String
  inst : String
  role : String
  content : Option String
  embedding : List Rat
  url : Option String
  timestamp : Int
deriving DecidableEq

/-- `MessageNode::to_message` (`src/models/message_node.rs`). -/
def MessageNode.to_message (n : MessageNode) : Message :=
  { role := n.role, content := n.content.getD "" }

/-- `ChatRequest` (`src/models/chat_request.rs`). -/
structure ChatRequest where
  model : String
  messages : List Message
deriving DecidableEq

structure Usage where
  prompt_tokens : Int
  completion_tokens : Int
  total_tokens : Int
deriving DecidableEq

structure Choice where
  index : Nat
  message : Message
  finish_reason : String
deriving DecidableEq

structure ChatResponse where
  id : String
  object : String
  created : Int
  model : String
  choices : List Choice
  usage : Usage
deriving DecidableEq

/-! ### Token counter (`src/utils/mod.rs` lines 56–78)

`tk s` abstracts `bpe.encode_with_special_tokens(&s).len()` for the
`o200k_base` tokenizer. -/

/-- `count_chat_tokens`: 4 per message plus role and content tokens, summed by
the loop, plus the trailing 3 for reply priming. -/
def count_chat_tokens (tk : String → Nat) (messages : List Message) : Nat :=
  (messages.foldl (fun acc m => acc + 4 + tk m.role + tk m.content) 0) + 3

/-- `count_single_message_tokens`: 4 of framing overhead plus role and content
tokens; no reply priming. -/
def count_single_message_tokens (tk : String → Nat) (message : Message) : Nat :=
  4 + tk message.role + tk message.content

/-! ### System-context compressor (`src/utils/mod.rs` lines 9–42) -/

/-- `message_to_string` (`src/utils/mod.rs` lines 9–16). -/
def message_to_string (msg : Message) : String :=
  match msg.role with
  | "user" => "User: " ++ msg.content
  | "assistant" => "Assistant: " ++ msg.content
  | "system" => "System Note: " ++ msg.content
  | _ => msg.role ++ ": " ++ msg.content

/-- `Iterator::position`: index of the first element satisfying `p`. -/
def position (p : Message → Bool) : List Message → Option Nat
  | [] => none
  | m :: rest => if p m then some 0 else (position p rest).map (· + 1)

/-- `Iterator::rposition`: index of the last element satisfying `p`. -/
def rposition (p : Message → Bool) (l : List Message) : Option Nat :=
  (position p l.reverse).map (fun i => l.length - 1 - i)

/-- `compress_system_context` (`src/utils/mod.rs` lines 18–42): if the first
system message is at index 0 and differs from the last one, fold the contents
of messages 1..=last into message 0 and keep everything after `last`. -/
def compress_system_context (messages : List Message) : List Message :=
  match position (fun m => m.role == "system") messages,
        rposition (fun m => m.role == "system") messages with
  | some first, some last =>
    if first ≠ 0 ∨ first = last then
      messages
    else
      match messages with
      | [] => messages
      | m0 :: rest =>
        let folded := (rest.take last).foldl
          (fun acc m => acc ++ "\n" ++ message_to_string m) m0.content
        { m0 with content := folded } :: messages.drop (last + 1)
  | _, _ => messages

/-! ### Persistence (`src/repos/message.rs` lines 125–175,
`src/repos/message/neo4j_message.rs` lines 97–157)

The store is abstracted as the list of persisted nodes; the Cypher `CREATE`
appends a node, and the early return for system roles appends nothing.  The
`RESPONDED_WITH` `MERGE` only creates an edge, never a node. -/

/-- `str::eq_ignore_ascii_case(role, "system")`: compare the ASCII-lowered
character sequences (`Char.toLower` lowers exactly the ASCII uppercase
letters, as Rust's comparison does). -/
def roleIsSystem (n : MessageNode) : Bool :=
  n.role.data.map Char.toLower == "system".data

/-- Effect of `save_message_node` on the set of persisted nodes: system-role
nodes are silently skipped, every other node is created. -/
def save_message_node (store : List MessageNode) (n : MessageNode) : List MessageNode :=
  if roleIsSystem n then store else store ++ [n]

/-! ### Context builder (`src/models/chat_request.rs` lines 23–82; the copy at
`src/handler/completions.rs` lines 126–183 mutates in place but performs the
same computation). -/

def semantic_prompt : String :=
  "The following is the result of a semantic search of the most related messages by cosine similarity to previous conversations"

def recent_prompt : String :=
  "The following are the most recent messages in the conversation"

/-- Membership of `(m.role, m.content)` in the `existing` hash set built from
the request's messages. -/
def existsPair (req : ChatRequest) (m : Message) : Bool :=
  req.messages.any (fun x => x.role == m.role && x.content == m.content)

/-- `similar_messages.retain(...)`: drop nodes already present in the chat. -/
def retainedSimilar (similar : List MessageNode) (req : ChatRequest) : List MessageNode :=
  similar.filter (fun n => ! existsPair req n.to_message)

/-- `sort_by(|a, b| a.timestamp.cmp(&b.timestamp))`: stable ascending sort. -/
def sortByTimestamp (l : List MessageNode) : List MessageNode :=
  l.mergeSort (fun a b => a.timestamp ≤ b.timestamp)

/-- The enrichment block: semantic header, deduplicated similar messages in
chronological order, recency header, recent messages in chronological order. -/
def enrichment_block (similar last_messages : List MessageNode) (req : ChatRequest) :
    List Message :=
  ({ role := "system", content := semantic_prompt } : Message)
    :: (sortByTimestamp (retainedSimilar similar req)).map MessageNode.to_message
    ++ ({ role := "system", content := recent_prompt } : Message)
    :: (sortByTimestamp last_messages).map MessageNode.to_message

/-- The similar section of the enrichment block, as inserted by the builder. -/
def similarSection (similar : List MessageNode) (req : ChatRequest) : List Message :=
  (sortByTimestamp (retainedSimilar similar req)).map MessageNode.to_message

/-- `insert_index`: 1 when the request opens with a system message, else 0. -/
def insert_index (req : ChatRequest) : Nat :=
  if ((req.messages.head?.map (fun m => m.role == "system")).getD false) then 1 else 0

/-- `enrich_chat_request`: splice the enrichment block into the request at
`insert_index`, leaving the model untouched. -/
def enrich_chat_request (similar last_messages : List MessageNode) (req : ChatRequest) :
    ChatRequest :=
  { model := req.model
    messages := req.messages.take (insert_index req)
      ++ enrichment_block similar last_messages req
      ++ req.messages.drop (insert_index req) }

/-! ### Budget enforcer (`src/utils/mod.rs` lines 80–149; the copy at
`src/handler/completions.rs` lines 49–117 is identical up to logging). -/

/-- Membership of `i` in the `system_message_indices` set computed once on the
original list. -/
def isSysIdx (messages : List Message) (i : Nat) : Bool :=
  ((messages[i]?).map (fun m => m.role == "system")).getD false

/-- One position is skipped when it lies in the (stale) system-index set or
equals the (stale) last-message index. -/
def skipIdx (sys : Nat → Bool) (lastIdx i : Nat) : Bool :=
  sys i || i == lastIdx

/-- The `while current_tokens > limit && current_index < messages.len()` loop:
skip protected indices, otherwise remove at the cursor (when more than one
message remains) and recount. -/
def truncGo (tk : String → Nat) (limit : Nat) (sys : Nat → Bool) (lastIdx : Nat)
    (messages : List Message) (idx : Nat) : List Message :=
  if count_chat_tokens tk messages ≤ limit then messages
  else if h : idx < messages.length then
    if skipIdx sys lastIdx idx then
      truncGo tk limit sys lastIdx messages (idx + 1)
    else if 1 < messages.length then
      truncGo tk limit sys lastIdx (messages.eraseIdx idx) idx
    else messages
  else messages
termination_by messages.length - idx
decreasing_by
  · omega
  · rw [List.length_eraseIdx, if_pos h]
    omega

/-- `truncate_messages_if_needed`: the mutated vector is returned.  The
system-index set and the last index are computed once, before any removal. -/
def truncate_messages_if_needed (tk : String → Nat) (messages : List Message)
    (limit : Nat) : List Message :=
  truncGo tk limit (isSysIdx messages) (messages.length - 1) messages 0

/-! ### `get_last_message_in_chat_request`

The helper in `src/utils/mod.rs` lines 151–161 rejects a non-user last
message; the handler's local copy in `src/handler/completions.rs` lines
119–124 returns the content of whatever message is last. -/

/-- The utils variant: errors when the list is empty or the last role is not
`user`. -/
def get_last_message_in_chat_request (chat_request : ChatRequest) :
    Except String String :=
  match chat_request.messages.getLast? with
  | some last_message =>
    if last_message.role = "user" then Except.ok last_message.content
    else Except.error "Last message is not a user message"
  | none => Except.error "No messages in chat request"

/-- The handler's local variant: no role check. -/
def handler_get_last_message (chat_request : ChatRequest) : Option String :=
  chat_request.messages.getLast?.map (fun m => m.content)

/-! ### Retrieval post-processing

`find_similar_messages` in `src/repos/message.rs` lines 226–303 consumes the
rows `(node fields, score)` returned by the vector-index query, skips rows
with an empty lower-cased trimmed content, keeps per content key the row with
the highest score (`content_map`), sorts descending by score and takes
`top_k`.  The draft in `src/repos/message/neo4j_message.rs` lines 159–224
performs no deduplication: it sorts all rows descending and takes `top_k`. -/

/-- `content_str.as_ref().map(|c| c.to_lowercase().trim().to_string()).unwrap_or_default()`:
lower-case the characters, then strip leading and trailing whitespace. -/
def content_key (c : Option String) : String :=
  ((c.map (fun s =>
    String.mk ((((s.data.map Char.toLower).dropWhile Char.isWhitespace).reverse.dropWhile
      Char.isWhitespace).reverse)))).getD ""

/-- Processing of one row against the `content_map`, modelled as an
association list keyed by the content key. -/
def dedupStep (acc : List (String × MessageNode × Rat)) (row : MessageNode × Rat) :
    List (String × MessageNode × Rat) :=
  let key := content_key row.1.content
  if key = "" then acc
  else
    match acc.find? (fun e => e.1 == key) with
    | some e => if row.2 ≤ e.2.2 then acc
                else acc.map (fun x => if x.1 == key then (key, row) else x)
    | none => acc ++ [(key, row)]

/-- The filled `content_map` after the row loop. -/
def dedupRows (rows : List (MessageNode × Rat)) : List (String × MessageNode × Rat) :=
  rows.foldl dedupStep []

/-- `sort_by(|a, b| b.1.partial_cmp(&a.1) ...)`: stable descending sort, then
`take(top_k)`; the scores are still attached. -/
def find_similar_ranked (rows : List (MessageNode × Rat)) (top_k : Nat) :
    List (MessageNode × Rat) :=
  (((dedupRows rows).map (fun e => e.2)).mergeSort (fun a b => b.2 ≤ a.2)).take top_k

/-- `find_similar_messages` (`src/repos/message.rs`): the deduplicated,
descending, truncated node list. -/
def find_similar_messages (rows : List (MessageNode × Rat)) (top_k : Nat) :
    List MessageNode :=
  (find_similar_ranked rows top_k).map (fun e => e.1)

/-- `find_similar_messages` draft in `src/repos/message/neo4j_message.rs`:
no content deduplication, only sort descending and take `top_k`. -/
def find_similar_messages_raw (rows : List (MessageNode × Rat)) (top_k : Nat) :
    List MessageNode :=
  ((rows.mergeSort (fun a b => b.2 ≤ a.2)).take top_k).map (fun e => e.1)

/-! ### Model table (`src/clients/openai/model_info.rs`) -/

/-- `ModelInfo::new(name).input_tokens`. -/
def input_token_limit (name : String) : Nat :=
  match name with
  | "gpt-4.1" => 128000
  | "gpt-4o" => 128000
  | "gpt-4o-mini" => 48000
  | "llama3.2" => 128000
  | "mistral-large-2402" => 128000
  | "gemini-2.0-flash" => 128000
  | _ => 128000

/-! ### Pipeline handler (`src/handler/completions.rs` lines 185–356)

The handler is embedded as a pure function of the request and of oracles for
the external collaborators: the token counter `tk`, the embedding port
`embed`, the clock `now`, the generated `trace_id`, the store's retrieval
results `similar` and `recent`, and the parsed upstream response
`upstreamResp` (`none` when the upstream reply does not parse).  Its
observable outcome is the response (synthetic or the outgoing upstream
request), whether the upstream was called, and the list of persisted nodes. -/

def MAX_TOKENS : Nat := 64000

/-- The `error_content` format string of the oversize branch. -/
def oversize_content (measured limit : Nat) : String :=
  "Your last message is too long. It contains approximately " ++ toString measured
    ++ " tokens, which exceeds the maximum limit of " ++ toString limit
    ++ ". Please shorten your message."

/-- The synthetic `ChatResponse` returned by the oversize branch. -/
def synthetic_error_response (trace_id : String) (now : Int) (model : String)
    (measured : Nat) : ChatResponse :=
  { id := "error-" ++ trace_id
    object := "chat.completion"
    created := now
    model := model
    choices := [{ index := 0
                  message := { role := "assistant"
                               content := oversize_content measured MAX_TOKENS }
                  finish_reason := "length" }]
    usage := { prompt_tokens := (measured : Int)
               completion_tokens := 0
               total_tokens := (measured : Int) } }

/-- `MessageNode::from_message` (`src/models/message_node.rs` lines 75–87),
with the embedding port and clock as oracles. -/
def MessageNode.from_message (embed : String → List Rat) (now : Int) (m : Message)
    (trace_id partition : String) (inst? : Option String) : MessageNode :=
  { trace_id := trace_id
    partition := partition
    inst := inst?.getD partition
    role := m.role
    content := some m.content
    embedding := embed m.content
    url := none
    timestamp := now }

/-- Observable outcome of `handle_with_partition`. -/
structure HandlerOutcome where
  response : Sum ChatResponse ChatRequest
  upstreamCalled : Bool
  persisted : List MessageNode
deriving DecidableEq

/-- `handle_with_partition`: oversize pre-check on the last message against
the constant `MAX_TOKENS`; otherwise save every incoming message (the store
skips system roles), enrich, truncate to `MAX_TOKENS`, forward, and save the
first choice of a parsed upstream response. -/
def handle_with_partition (tk : String → Nat) (embed : String → List Rat)
    (now : Int) (trace_id : String) (similar recent : List MessageNode)
    (upstreamResp : Option ChatResponse) (partition : String)
    (inst? : Option String) (req : ChatRequest) : HandlerOutcome :=
  match req.messages.getLast? with
  | some last_message =>
    if MAX_TOKENS < count_single_message_tokens tk last_message then
      { response := Sum.inl (synthetic_error_response trace_id now req.model
          (count_single_message_tokens tk last_message))
        upstreamCalled := false
        persisted := [] }
    else
      handle_normal_flow tk embed now trace_id similar recent upstreamResp
        partition inst? req
  | none =>
    handle_normal_flow tk embed now trace_id similar recent upstreamResp
      partition inst? req
where
  /-- The flow after the oversize pre-check: persist inbound, enrich,
  truncate, call upstream, persist the assistant turn of a parsed response. -/
  handle_normal_flow (tk : String → Nat) (embed : String → List Rat)
      (now : Int) (trace_id : String) (similar recent : List MessageNode)
      (upstreamResp : Option ChatResponse) (partition : String)
      (inst? : Option String) (req : ChatRequest) : HandlerOutcome :=
    let instName := inst?.getD partition
    let inbound := req.messages.map
      (fun m => MessageNode.from_message embed now m trace_id partition (some instName))
    let outbound := match upstreamResp with
      | some resp =>
        match resp.choices.head? with
        | some choice =>
          [MessageNode.from_message embed now choice.message trace_id partition
            (some instName)]
        | none => []
      | none => []
    let enriched := enrich_chat_request similar recent req
    let outgoing := { enriched with
      messages := truncate_messages_if_needed tk enriched.messages MAX_TOKENS }
    { response := Sum.inr outgoing
      upstreamCalled := true
      persisted := (inbound ++ outbound).foldl save_message_node [] }

/-- Concrete stand-in token counter used for closed evaluations: the number of
characters of the string. -/
def tokLen (s : String) : Nat := s.data.length

/-! ### Concrete test vectors

Closed inputs used by counterexample and witness theorems; `nodeDup`,
`nodeNew` and `reqDup` reproduce the `test_enrich_deduplication` fixture of
`src/models/chat_request.rs`. -/

def uA : Message := { role := "user", content := "A" }

def sS : Message := { role := "system", content := "S" }

def uB : Message := { role := "user", content := "B" }

def nodeDup : MessageNode :=
  { trace_id := "trace-100", partition := "test", inst := "test_instance"
    role := "user", content := some "already exists", embedding := [0]
    url := none, timestamp := 100 }

def nodeNew : MessageNode :=
  { trace_id := "trace-101", partition := "test", inst := "test_instance"
    role := "assistant", content := some "new similar", embedding := [0]
    url := none, timestamp := 101 }

def reqDup : ChatRequest :=
  { model := "test-model"
    messages := [{ role := "user", content := "already exists" },
                 { role := "user", content := "current user message" }] }

/-- A content of 99992 characters: under `tokLen` the user message carrying it
counts 4 + 4 + 99992 = 100000 tokens. -/
def bigContent : String := String.mk (List.replicate 99992 'a')

def bigMsg : Message := { role := "user", content := bigContent }

def reqBig : ChatRequest :=
  { model := "gpt-4o", messages := [bigMsg] }

/-- A request ending in an assistant turn (scenario S4 of the spec). -/
def reqAssist : ChatRequest :=
  { model := "gpt-4o"
    messages := [{ role := "user", content := "hi" },
                 { role := "assistant", content := "yo" }] }

/-- Two vector-index rows whose contents collide after lower-casing and
trimming. -/
def rowHiA : MessageNode × Rat :=
  ({ trace_id := "t1", partition := "p", inst := "p", role := "user"
     content := some "hi", embedding := [0], url := none, timestamp := 1 }, 2)

def rowHiB : MessageNode × Rat :=
  ({ trace_id := "t2", partition := "p", inst := "p", role := "user"
     content := some "Hi ", embedding := [0], url := none, timestamp := 2 }, 1)

/-- A node whose role is `system` in mixed ASCII case. -/
def sysCaseNode : MessageNode :=
  { trace_id := "t3", partition := "p", inst := "p", role := "SyStEm"
    content := some "note", embedding := [0], url := none, timestamp := 3 }

def userNode : MessageNode :=
  { trace_id := "t4", partition := "p", inst := "p", role := "user"
    content := some "hello", embedding := [0], url := none, timestamp := 4 }

/-- The S5 fixture: two leading system messages then a user prompt. -/
def msgsTwoSystems : List Message :=
  [{ role := "system", content := "A" }, { role := "system", content := "B" },
   { role := "user", content := "q" }]

/-- A list whose first system message is not at index 0. -/
def msgsUserFirst : List Message :=
  [{ role := "user", content := "q" }, { role := "system", content := "A" },
   { role := "system", content := "B" }]

/-! ## Theorems -/

/-! ### Helper lemmas about the token counter -/

lemma foldl_tokens (tk : String → Nat) :
    ∀ (ms : List Message) (a : Nat),
      ms.foldl (fun acc m => acc + 4 + tk m.role + tk m.content) a
        = a + (ms.map (count_single_message_tokens tk)).sum := by
  intro ms
  induction ms with
  | nil => intro a; simp
  | cons m rest ih =>
    intro a
    simp only [List.foldl_cons, List.map_cons, List.sum_cons, ih,
      count_single_message_tokens]
    ring

lemma count_chat_tokens_eq_sum (tk : String → Nat) (ms : List Message) :
    count_chat_tokens tk ms = (ms.map (count_single_message_tokens tk)).sum + 3 := by
  unfold count_chat_tokens
  rw [foldl_tokens]
  ring

/-- C8: the token counter is a pure function satisfying
`count_single_message_tokens m = 4 + tk role + tk content` for every message
and `count_chat_tokens ms = Σ count_single_message_tokens mᵢ + 3` for every
message list, for every tokenizer `tk` (hence for `o200k_base`). -/
theorem c8_token_counter_algebra (tk : String → Nat) (m : Message) (ms : List Message) :
    count_single_message_tokens tk m = 4 + tk m.role + tk m.content ∧
    count_chat_tokens tk ms = (ms.map (count_single_message_tokens tk)).sum + 3 :=
  ⟨rfl, count_chat_tokens_eq_sum tk ms⟩

/-! ### Helper lemmas about persistence -/

lemma countP_save (store : List MessageNode) (n : MessageNode) :
    (save_message_node store n).countP (fun x => roleIsSystem x)
      = store.countP (fun x => roleIsSystem x) := by
  by_cases h : roleIsSystem n
  · simp [save_message_node, h]
  · simp [save_message_node, h, List.countP_append, List.countP_cons]

lemma foldl_save_countP :
    ∀ (calls : List MessageNode) (store : List MessageNode),
      (calls.foldl save_message_node store).countP (fun x => roleIsSystem x)
        = store.countP (fun x => roleIsSystem x) := by
  intro calls
  induction calls with
  | nil => intro store; rfl
  | cons n rest ih => intro store; rw [List.foldl_cons, ih, countP_save]

/-- C7: replaying any sequence of `save_message_node` calls against an empty
store persists zero system-role nodes (ASCII case-insensitively), and a call
on a system-role node leaves the store untouched. -/
theorem c7_no_system_persisted (calls : List MessageNode) :
    ((calls.foldl save_message_node []).countP (fun x => roleIsSystem x) = 0) ∧
    (∀ store n, roleIsSystem n = true → save_message_node store n = store) := by
  refine ⟨?_, ?_⟩
  · rw [foldl_save_countP]; rfl
  · intro store n h
    simp [save_message_node, h]

/-- Witness for C7 at a concrete call sequence including a mixed-case system
role. -/
theorem c7_no_system_persisted_witness :
    (([sysCaseNode, userNode].foldl save_message_node []).countP
      (fun x => roleIsSystem x) = 0) ∧
    save_message_node [userNode] sysCaseNode = [userNode] :=
  ⟨(c7_no_system_persisted [sysCaseNode, userNode]).1,
   (c7_no_system_persisted []).2 [userNode] sysCaseNode (by decide)⟩

/-- C1 (code bug): the truncation pass protects stale indices, not messages.
On `[user A, system S, user B]` with limit 0 it deletes the system message
(the output is `[user B]`), and on `[system S, user A, user B]` it deletes
the final message (the output is `[system S]`) — for every tokenizer, since
the token count of any list is at least 3 > 0. -/
theorem c1_truncation_removes_protected_messages :
    (∀ tk : String → Nat, truncate_messages_if_needed tk [uA, sS, uB] 0 = [uB]) ∧
    (∀ tk : String → Nat, truncate_messages_if_needed tk [sS, uA, uB] 0 = [sS]) := by
  constructor <;>
    (intro tk
     simp +decide [truncate_messages_if_needed, truncGo, count_chat_tokens,
       skipIdx, isSysIdx, uA, sS, uB])

/-! ### Frame property of the context builder -/

lemma sublist_splice {α : Type} (l b : List α) (i : Nat) :
    l.Sublist (l.take i ++ b ++ l.drop i) := by
  have h := List.Sublist.append_left (List.sublist_append_right b (l.drop i)) (l.take i)
  rw [List.take_append_drop i l] at h
  rw [List.append_assoc]
  exact h

/-- C10: `enrich_chat_request` keeps the model untouched, keeps every original
message (in role, content and relative order) as a sublist of the output, and
changes the message list only by inserting the enrichment block at position 0
or 1. -/
theorem c10_enrich_frame (similar recent : List MessageNode) (req : ChatRequest) :
    (enrich_chat_request similar recent req).model = req.model ∧
    req.messages.Sublist (enrich_chat_request similar recent req).messages ∧
    ∃ i, (i = 0 ∨ i = 1) ∧
      (enrich_chat_request similar recent req).messages =
        req.messages.take i ++ enrichment_block similar recent req
          ++ req.messages.drop i := by
  refine ⟨rfl, ?_, insert_index req, ?_, rfl⟩
  · exact sublist_splice _ _ _
  · unfold insert_index
    split <;> simp

/-! ### Deduplication in the context builder -/

/-- C2 (amended): the context builder deduplicates the similar list against
the request — no message of the similar section shares a role–content pair
with a request message, and every similar node whose pair is absent from the
request is inserted into the enriched messages. -/
theorem c2_enrich_dedups_against_request (similar recent : List MessageNode)
    (req : ChatRequest) :
    ((similarSection similar req).all (fun m => ! existsPair req m) = true) ∧
    (∀ n, n ∈ similar → existsPair req n.to_message = false →
      n.to_message ∈ (enrich_chat_request similar recent req).messages) := by
  constructor
  · rw [List.all_eq_true]
    intro m hm
    unfold similarSection sortByTimestamp at hm
    rcases List.mem_map.mp hm with ⟨n, hn, rfl⟩
    have hn2 : n ∈ retainedSimilar similar req :=
      ((List.mergeSort_perm _ _).mem_iff).mp hn
    have h3 := List.of_mem_filter hn2
    simpa using h3
  · intro n hn hdup
    have hn2 : n ∈ retainedSimilar similar req :=
      List.mem_filter.mpr ⟨hn, by simp [hdup]⟩
    have hn3 : n ∈ sortByTimestamp (retainedSimilar similar req) :=
      ((List.mergeSort_perm _ _).mem_iff).mpr hn2
    have hn4 : n.to_message ∈ similarSection similar req :=
      List.mem_map_of_mem _ hn3
    have hmsg : (enrich_chat_request similar recent req).messages =
        req.messages.take (insert_index req) ++ enrichment_block similar recent req
          ++ req.messages.drop (insert_index req) := rfl
    rw [hmsg]
    refine List.mem_append_left _ (List.mem_append_right _ ?_)
    unfold enrichment_block
    exact List.mem_append_left _ (List.mem_cons_of_mem _ hn4)

/-- Counterexample to C2 as stated: with the repository's own
`test_enrich_deduplication` fixture, the similar node whose role and content
already occur in the request is *not* inserted — the enriched message list
still contains exactly one copy of the pair. -/
theorem c2_counterexample_dedup_happens :
    MessageNode.to_message nodeDup = { role := "user", content := "already exists" } ∧
    ((enrich_chat_request [nodeDup] [] reqDup).messages.count
      ({ role := "user", content := "already exists" } : Message)) = 1 := by
  refine ⟨by decide, ?_⟩
  simp +decide [enrich_chat_request, enrichment_block, retainedSimilar,
    sortByTimestamp, insert_index, existsPair, nodeDup, reqDup, List.mergeSort]

/-- Witness for the amended C2 at the fixture inputs. -/
theorem c2_enrich_dedups_witness :
    ((similarSection [nodeDup] reqDup).all (fun m => ! existsPair reqDup m) = true) ∧
    MessageNode.to_message nodeNew ∈ (enrich_chat_request [nodeNew] [] reqDup).messages :=
  ⟨(c2_enrich_dedups_against_request [nodeDup] [] reqDup).1,
   (c2_enrich_dedups_against_request [nodeNew] [] reqDup).2 nodeNew (by decide) (by decide)⟩

/-! ### Helper lemmas about `position` and `rposition` -/

lemma position_eq_some_lt (p : Message → Bool) :
    ∀ (l : List Message) (i : Nat), position p l = some i → i < l.length := by
  intro l
  induction l with
  | nil => intro i h; simp [position] at h
  | cons m rest ih =>
    intro i h
    by_cases hm : p m
    · simp [position, hm] at h
      simp only [List.length_cons]
      omega
    · simp only [position, if_neg hm] at h
      rcases Option.map_eq_some'.mp h with ⟨j, hj, hji⟩
      have := ih j hj
      simp only [List.length_cons]
      omega

lemma position_eq_some_false_before (p : Message → Bool) :
    ∀ (l : List Message) (i : Nat), position p l = some i →
      ∀ j (hj : j < l.length), j < i → p l[j] = false := by
  intro l
  induction l with
  | nil => intro i h; simp [position] at h
  | cons m rest ih =>
    intro i h j hj hji
    by_cases hm : p m
    · simp [position, hm] at h
      omega
    · simp only [position, if_neg hm] at h
      rcases Option.map_eq_some'.mp h with ⟨i0, hi0, hii⟩
      match j with
      | 0 => simpa using hm
      | j0 + 1 =>
        have hj0 : j0 < rest.length := by
          simp only [List.length_cons] at hj; omega
        have : p rest[j0] = false := ih i0 hi0 j0 hj0 (by omega)
        simpa using this

lemma position_eq_none_iff (p : Message → Bool) :
    ∀ l : List Message, position p l = none ↔ ∀ x ∈ l, p x = false := by
  intro l
  induction l with
  | nil => simp [position]
  | cons m rest ih =>
    by_cases hm : p m
    · simp only [position, if_pos hm]
      constructor
      · intro h; cases h
      · intro h
        exact absurd (h m (List.mem_cons_self _ _)) (by simp [hm])
    · simp only [position, if_neg hm, Option.map_eq_none', ih]
      constructor
      · intro h x hx
        rcases List.mem_cons.mp hx with rfl | hx2
        · simpa using hm
        · exact h x hx2
      · intro h x hx
        exact h x (List.mem_cons_of_mem _ hx)

lemma position_append_last (p : Message → Bool) (a : Message) (ha : p a = true) :
    ∀ l1 : List Message, (∀ x ∈ l1, p x = false) →
      position p (l1 ++ [a]) = some l1.length := by
  intro l1
  induction l1 with
  | nil => intro _; simp [position, ha]
  | cons m rest ih =>
    intro hall
    have hm : p m = false := hall m (List.mem_cons_self _ _)
    have hr := ih (fun x hx => hall x (List.mem_cons_of_mem _ hx))
    simp [position, hm, hr]

lemma position_cons_zero (p : Message → Bool) (l : List Message)
    (h : position p l = some 0) :
    ∃ m rest, l = m :: rest ∧ p m = true := by
  match l with
  | [] => simp [position] at h
  | m :: rest =>
    refine ⟨m, rest, rfl, ?_⟩
    by_cases hm : p m
    · exact hm
    · simp only [position, if_neg hm] at h
      rcases Option.map_eq_some'.mp h with ⟨j, _, hji⟩
      omega

lemma mem_drop_after_rposition (p : Message → Bool) (l : List Message) (i : Nat)
    (h : rposition p l = some i) : ∀ x ∈ l.drop (i + 1), p x = false := by
  unfold rposition at h
  rcases Option.map_eq_some'.mp h with ⟨j, hj, hij⟩
  have hjlt : j < l.length := by
    have := position_eq_some_lt p l.reverse j hj
    simpa using this
  intro x hx
  rcases List.mem_iff_getElem.mp hx with ⟨k, hk, hxk⟩
  have hk2 : k < l.length - (i + 1) := by
    simpa [List.length_drop] using hk
  have hm : i + 1 + k < l.length := by omega
  have hr : l.length - 1 - (i + 1 + k) < l.reverse.length := by
    simp only [List.length_reverse]
    omega
  have hfalse := position_eq_some_false_before p l.reverse j hj
    (l.length - 1 - (i + 1 + k)) hr (by omega)
  rw [List.getElem_reverse] at hfalse
  have hidx : l.length - 1 - (l.length - 1 - (i + 1 + k)) = i + 1 + k := by omega
  simp only [hidx] at hfalse
  rw [← hxk, List.getElem_drop]
  exact hfalse

/-! ### Branch lemmas for the compressor -/

lemma compress_of_position_none (l : List Message)
    (h : position (fun m => m.role == "system") l = none) :
    compress_system_context l = l := by
  have hr : rposition (fun m => m.role == "system") l = none := by
    unfold rposition
    have : position (fun m => m.role == "system") l.reverse = none := by
      rw [position_eq_none_iff]
      intro x hx
      exact (position_eq_none_iff _ l).mp h x (List.mem_reverse.mp hx)
    rw [this]
    rfl
  simp [compress_system_context, h, hr]

lemma compress_of_degenerate (l : List Message) (f la : Nat)
    (hpos : position (fun m => m.role == "system") l = some f)
    (hrpos : rposition (fun m => m.role == "system") l = some la)
    (hcond : f ≠ 0 ∨ f = la) :
    compress_system_context l = l := by
  simp only [compress_system_context, hpos, hrpos]
  rw [if_pos hcond]

lemma compress_main_shape (m0 : Message) (rest : List Message) (la : Nat)
    (hpos : position (fun m => m.role == "system") (m0 :: rest) = some 0)
    (hrpos : rposition (fun m => m.role == "system") (m0 :: rest) = some la)
    (hla : (0 : Nat) ≠ la) :
    compress_system_context (m0 :: rest) =
      ({ m0 with
          content :=
            (rest.take la).foldl
              (fun acc m => acc ++ "\n" ++ message_to_string m) m0.content } : Message)
        :: (m0 :: rest).drop (la + 1) := by
  have hcond : ¬ ((0 : Nat) ≠ 0 ∨ 0 = la) := by
    rintro (h | h)
    · exact h rfl
    · exact hla h
  simp only [compress_system_context, hpos, hrpos]
  rw [if_neg hcond]

lemma compress_main_shape_ex (m0 : Message) (rest : List Message) (la : Nat)
    (hpos : position (fun m => m.role == "system") (m0 :: rest) = some 0)
    (hrpos : rposition (fun m => m.role == "system") (m0 :: rest) = some la)
    (hla : (0 : Nat) ≠ la) :
    ∃ s : String, compress_system_context (m0 :: rest) =
      ({ m0 with content := s } : Message) :: (m0 :: rest).drop (la + 1) :=
  ⟨_, compress_main_shape m0 rest la hpos hrpos hla⟩

lemma compress_compress (l : List Message) :
    compress_system_context (compress_system_context l) = compress_system_context l := by
  cases hpos : position (fun m => m.role == "system") l with
  | none =>
    rw [compress_of_position_none l hpos, compress_of_position_none l hpos]
  | some f =>
    cases hrpos : rposition (fun m => m.role == "system") l with
    | none =>
      exfalso
      have hnone : position (fun m => m.role == "system") l = none := by
        rw [position_eq_none_iff]
        intro x hx
        have hrevnone : position (fun m => m.role == "system") l.reverse = none := by
          unfold rposition at hrpos
          exact Option.map_eq_none'.mp hrpos
        exact (position_eq_none_iff _ l.reverse).mp hrevnone x (List.mem_reverse.mpr hx)
      rw [hpos] at hnone
      cases hnone
    | some la =>
      by_cases hcond : f ≠ 0 ∨ f = la
      · rw [compress_of_degenerate l f la hpos hrpos hcond,
            compress_of_degenerate l f la hpos hrpos hcond]
      · push_neg at hcond
        obtain ⟨hf0, hfla⟩ := hcond
        subst hf0
        rcases position_cons_zero _ l hpos with ⟨m0, rest, rfl, hp0⟩
        rcases compress_main_shape_ex m0 rest la hpos hrpos hfla with ⟨s, hc⟩
        rw [hc]
        have hp0s : (fun m => m.role == "system") ({ m0 with content := s } : Message)
            = true := hp0
        have htail : ∀ x ∈ (m0 :: rest).drop (la + 1),
            (fun m => m.role == "system") x = false :=
          mem_drop_after_rposition _ _ la hrpos
        have posc : position (fun m => m.role == "system")
            (({ m0 with content := s } : Message) :: (m0 :: rest).drop (la + 1))
              = some 0 := by
          simp [position, hp0s]
        have rposc : rposition (fun m => m.role == "system")
            (({ m0 with content := s } : Message) :: (m0 :: rest).drop (la + 1))
              = some 0 := by
          unfold rposition
          rw [List.reverse_cons,
            position_append_last _ _ hp0s _
              (fun x hx => htail x (List.mem_reverse.mp hx))]
          simp only [Option.map_some', Option.some.injEq, List.length_reverse,
            List.length_cons]
          omega
        exact compress_of_degenerate _ 0 0 posc rposc (Or.inr rfl)

/-- C9: the system-context compressor is idempotent; in particular it returns
the list unchanged when there is no system message, when the first system
message is not at index 0, or when the first and last system indices agree
(at most one system message). -/
theorem c9_compress_idempotent (messages : List Message) :
    compress_system_context (compress_system_context messages)
      = compress_system_context messages ∧
    (position (fun m => m.role == "system") messages = none →
      compress_system_context messages = messages) ∧
    (∀ f la, position (fun m => m.role == "system") messages = some f →
      rposition (fun m => m.role == "system") messages = some la →
      (f ≠ 0 ∨ f = la) → compress_system_context messages = messages) :=
  ⟨compress_compress messages,
   fun h => compress_of_position_none messages h,
   fun f la hpos hrpos hcond => compress_of_degenerate messages f la hpos hrpos hcond⟩

/-- Witness for C9: idempotence at the S5 fixture and the unchanged case at a
list whose first system message is at index 1. -/
theorem c9_compress_idempotent_witness :
    compress_system_context (compress_system_context msgsTwoSystems)
      = compress_system_context msgsTwoSystems ∧
    compress_system_context msgsUserFirst = msgsUserFirst :=
  ⟨(c9_compress_idempotent msgsTwoSystems).1,
   (c9_compress_idempotent msgsUserFirst).2.2 1 2 (by decide) (by decide)
     (Or.inl (by decide))⟩

/-! ### The budget enforcer respects the limit when possible (C5)

The loop invariant: positions strictly below the cursor that survive are
exactly positions the cursor skipped, they still hold the original messages,
and once a removal has happened the cursor is parked on a non-skip position
forever.  From this, when the loop exhausts the list while still over budget,
every surviving message except the last is an original system message. -/

lemma dropLast_all_system (orig msgs : List Message) (idx : Nat)
    (h1 : msgs.length ≤ orig.length)
    (h4 : ∀ j, j < idx → j < msgs.length →
      skipIdx (isSysIdx orig) (orig.length - 1) j = true)
    (h5 : ∀ j, j < idx → j < msgs.length → msgs[j]? = orig[j]?)
    (hexit : msgs.length ≤ idx) :
    (msgs.dropLast.all (fun m => m.role == "system")) = true := by
  rw [List.all_eq_true]
  intro x hx
  rcases List.mem_iff_getElem.mp hx with ⟨j, hj, rfl⟩
  have hjlen : j < msgs.length - 1 := by
    simpa [List.length_dropLast] using hj
  have hjlt : j < msgs.length := by omega
  have hjo : j < orig.length := by omega
  have hskip := h4 j (by omega) hjlt
  have hne : (j == orig.length - 1) = false := by
    rw [beq_eq_false_iff_ne]
    omega
  have hsys : isSysIdx orig j = true := by
    unfold skipIdx at hskip
    rw [hne, Bool.or_false] at hskip
    exact hskip
  unfold isSysIdx at hsys
  rw [List.getElem?_eq_getElem hjo] at hsys
  simp only [Option.map_some', Option.getD_some] at hsys
  have h5j := h5 j (by omega) hjlt
  rw [List.getElem?_eq_getElem hjo, List.getElem?_eq_getElem hjlt] at h5j
  have heq : msgs[j] = orig[j] := Option.some.inj h5j
  rw [List.getElem_dropLast, heq]
  exact hsys

lemma truncGo_spec (tk : String → Nat) (limit : Nat) (orig : List Message) :
    ∀ (n : Nat) (msgs : List Message) (idx : Nat), msgs.length - idx ≤ n →
      msgs.length ≤ orig.length →
      (msgs.length = orig.length → msgs = orig) →
      (msgs.length < orig.length →
        skipIdx (isSysIdx orig) (orig.length - 1) idx = false) →
      (∀ j, j < idx → j < msgs.length →
        skipIdx (isSysIdx orig) (orig.length - 1) j = true) →
      (∀ j, j < idx → j < msgs.length → msgs[j]? = orig[j]?) →
      (count_chat_tokens tk
          (truncGo tk limit (isSysIdx orig) (orig.length - 1) msgs idx) ≤ limit ∨
        ((truncGo tk limit (isSysIdx orig) (orig.length - 1) msgs idx).dropLast.all
          (fun m => m.role == "system")) = true) := by
  intro n
  induction n with
  | zero =>
    intro msgs idx hn h1 h2 h3 h4 h5
    have hexit : msgs.length ≤ idx := by omega
    rw [truncGo]
    by_cases hcount : count_chat_tokens tk msgs ≤ limit
    · rw [if_pos hcount]
      exact Or.inl hcount
    · rw [if_neg hcount, dif_neg (by omega)]
      exact Or.inr (dropLast_all_system orig msgs idx h1 h4 h5 hexit)
  | succ n ih =>
    intro msgs idx hn h1 h2 h3 h4 h5
    rw [truncGo]
    by_cases hcount : count_chat_tokens tk msgs ≤ limit
    · rw [if_pos hcount]
      exact Or.inl hcount
    rw [if_neg hcount]
    by_cases hidx : idx < msgs.length
    · rw [dif_pos hidx]
      by_cases hskip : skipIdx (isSysIdx orig) (orig.length - 1) idx = true
      · rw [if_pos hskip]
        have hlenfull : msgs.length = orig.length := by
          by_contra hlt
          have := h3 (by omega)
          rw [hskip] at this
          cases this
        have horig : msgs = orig := h2 hlenfull
        subst horig
        refine ih msgs (idx + 1) (by omega) h1 h2 ?_ ?_ ?_
        · intro hlt; omega
        · intro j hj hjl
          rcases Nat.lt_succ_iff_lt_or_eq.mp hj with hj2 | rfl
          · exact h4 j hj2 hjl
          · exact hskip
        · intro j hj hjl
          rfl
      · rw [if_neg hskip]
        by_cases hone : 1 < msgs.length
        · rw [if_pos hone]
          have hskipf : skipIdx (isSysIdx orig) (orig.length - 1) idx = false := by
            cases h : skipIdx (isSysIdx orig) (orig.length - 1) idx
            · rfl
            · exact absurd h hskip
          have hlen : (msgs.eraseIdx idx).length = msgs.length - 1 := by
            rw [List.length_eraseIdx, if_pos hidx]
          refine ih (msgs.eraseIdx idx) idx (by omega) (by omega) ?_ ?_ ?_ ?_
          · intro heq; omega
          · intro _; exact hskipf
          · intro j hj hjl
            exact h4 j hj (by omega)
          · intro j hj hjl
            rw [List.getElem?_eraseIdx, if_pos (by omega)]
            exact h5 j hj (by omega)
        · rw [if_neg hone]
          refine Or.inr ?_
          have hlen1 : msgs.length = 1 := by omega
          match msgs, hlen1 with
          | [m], _ => rfl
    · rw [dif_neg hidx]
      exact Or.inr (dropLast_all_system orig msgs idx h1 h4 h5 (by omega))

/-- C5: after the budget enforcer runs, either the total token count of the
remaining list is within the limit, or every remaining message except the
final one has role `system`. -/
theorem c5_truncation_budget_or_protected (tk : String → Nat)
    (messages : List Message) (limit : Nat) :
    count_chat_tokens tk (truncate_messages_if_needed tk messages limit) ≤ limit ∨
    ((truncate_messages_if_needed tk messages limit).dropLast.all
      (fun m => m.role == "system")) = true := by
  unfold truncate_messages_if_needed
  refine truncGo_spec tk limit messages messages.length messages 0 (by omega)
    le_rfl (fun _ => rfl) ?_ ?_ ?_
  · intro h; omega
  · intro j hj _; omega
  · intro j hj _; omega

/-! ### The oversize pre-check (C3) and the missing role check (C4) -/

lemma tokLen_bigContent : tokLen bigContent = 99992 :=
  List.length_replicate 99992 'a'

lemma count_single_eq (tk : String → Nat) (m : Message) :
    count_single_message_tokens tk m = 4 + tk m.role + tk m.content := rfl

lemma count_single_bigMsg : count_single_message_tokens tokLen bigMsg = 100000 := by
  rw [count_single_eq, show bigMsg.role = "user" from rfl,
    show bigMsg.content = bigContent from rfl, tokLen_bigContent,
    show tokLen "user" = 4 from by decide]

/-- C3 (amended): the oversize branch is decided by comparing the last
message's token count — whatever its role — against the fixed constant
`MAX_TOKENS = 64000`, not against the model's `input_token_limit`.  When over
the constant, the outcome is a synthetic response (one choice, finish reason
`length`, assistant content carrying the measured and maximum counts), no
upstream call and no persisted node; when within the constant, the upstream
flow runs. -/
theorem c3_oversize_precheck_fixed_limit
    (tk : String → Nat) (embed : String → List Rat) (now : Int) (trace_id : String)
    (similar recent : List MessageNode) (upstreamResp : Option ChatResponse)
    (partition : String) (inst? : Option String) (req : ChatRequest)
    (last_message : Message)
    (hlast : req.messages.getLast? = some last_message) :
    (MAX_TOKENS < count_single_message_tokens tk last_message →
      handle_with_partition tk embed now trace_id similar recent upstreamResp
          partition inst? req
        = { response := Sum.inl (synthetic_error_response trace_id now req.model
              (count_single_message_tokens tk last_message))
            upstreamCalled := false
            persisted := [] } ∧
      (synthetic_error_response trace_id now req.model
          (count_single_message_tokens tk last_message)).choices.map
          (fun c => c.finish_reason) = ["length"] ∧
      (synthetic_error_response trace_id now req.model
          (count_single_message_tokens tk last_message)).choices.map
          (fun c => c.message.content)
        = [oversize_content (count_single_message_tokens tk last_message) MAX_TOKENS]) ∧
    (count_single_message_tokens tk last_message ≤ MAX_TOKENS →
      (handle_with_partition tk embed now trace_id similar recent upstreamResp
        partition inst? req).upstreamCalled = true) := by
  constructor
  · intro hover
    refine ⟨?_, rfl, rfl⟩
    simp only [handle_with_partition, hlast]
    rw [if_pos hover]
  · intro hunder
    simp only [handle_with_partition, hlast]
    rw [if_neg (Nat.not_lt.mpr hunder)]
    rfl

/-- Witness for the amended C3 at the `reqBig` fixture (100000 tokens under
the `tokLen` stand-in: over the 64000 constant, branch taken). -/
theorem c3_oversize_precheck_witness :
    handle_with_partition tokLen (fun _ => []) 0 "t" [] [] none "p" none reqBig
      = { response := Sum.inl (synthetic_error_response "t" 0 reqBig.model
            (count_single_message_tokens tokLen bigMsg))
          upstreamCalled := false
          persisted := [] } ∧
    (synthetic_error_response "t" 0 reqBig.model
        (count_single_message_tokens tokLen bigMsg)).choices.map
        (fun c => c.finish_reason) = ["length"] :=
  have h := (c3_oversize_precheck_fixed_limit tokLen (fun _ => []) 0 "t" [] [] none
    "p" none reqBig bigMsg rfl).1
    (by rw [count_single_bigMsg]; norm_num [MAX_TOKENS])
  ⟨h.1, h.2.1⟩

/-- Counterexample to C3 as stated: a `gpt-4o` request whose last user
message counts 100000 tokens — within the model's `input_token_limit` of
128000 — still takes the oversize branch (no upstream call), because the
handler compares against the fixed 64000 instead of the model's limit. -/
theorem c3_counterexample_model_limit_ignored :
    (handle_with_partition tokLen (fun _ => []) 0 "t" [] [] none "p" none
      reqBig).upstreamCalled = false ∧
    count_single_message_tokens tokLen bigMsg ≤ input_token_limit reqBig.model := by
  constructor
  · have h := (c3_oversize_precheck_fixed_limit tokLen (fun _ => []) 0 "t" [] [] none
      "p" none reqBig bigMsg rfl).1
      (by rw [count_single_bigMsg]; norm_num [MAX_TOKENS])
    rw [h.1]
  · rw [count_single_bigMsg]
    have : input_token_limit reqBig.model = 128000 := by decide
    rw [this]
    norm_num

/-- C4 (amended): the pipeline never rejects a request whose last message is
not a user turn — when the oversize branch is not taken it always proceeds to
call the upstream; only the unused utils helper
`get_last_message_in_chat_request` reports the error. -/
theorem c4_no_role_rejection
    (tk : String → Nat) (embed : String → List Rat) (now : Int) (trace_id : String)
    (similar recent : List MessageNode) (upstreamResp : Option ChatResponse)
    (partition : String) (inst? : Option String) (req : ChatRequest)
    (hrole : ∀ m, req.messages.getLast? = some m → m.role ≠ "user")
    (hsize : ∀ m, req.messages.getLast? = some m →
      count_single_message_tokens tk m ≤ MAX_TOKENS) :
    (handle_with_partition tk embed now trace_id similar recent upstreamResp
      partition inst? req).upstreamCalled = true ∧
    (get_last_message_in_chat_request req).isOk = false := by
  constructor
  · cases hl : req.messages.getLast? with
    | none =>
      simp only [handle_with_partition, hl]
      rfl
    | some m =>
      simp only [handle_with_partition, hl]
      rw [if_neg (Nat.not_lt.mpr (hsize m hl))]
      rfl
  · unfold get_last_message_in_chat_request
    cases hl : req.messages.getLast? with
    | none => rfl
    | some m =>
      simp [hrole m hl, Except.isOk, Except.toBool]

/-- Counterexample to C4 as stated: on a request ending with an assistant
message the handler calls the upstream and persists both turns instead of
failing; the role check lives only in the utils helper. -/
theorem c4_counterexample_assistant_last_accepted :
    (handle_with_partition tokLen (fun _ => []) 0 "t" [] [] none "p" none
      reqAssist).upstreamCalled = true ∧
    (handle_with_partition tokLen (fun _ => []) 0 "t" [] [] none "p" none
      reqAssist).persisted.length = 2 ∧
    get_last_message_in_chat_request reqAssist
      = Except.error "Last message is not a user message" :=
  ⟨by decide, by decide, rfl⟩

/-- Witness for the amended C4 at the `reqAssist` fixture. -/
theorem c4_no_role_rejection_witness :
    (handle_with_partition tokLen (fun _ => []) 0 "t" [] [] none "p" none
      reqAssist).upstreamCalled = true ∧
    (get_last_message_in_chat_request reqAssist).isOk = false :=
  c4_no_role_rejection tokLen (fun _ => []) 0 "t" [] [] none "p" none reqAssist
    (by
      intro m h
      rw [show reqAssist.messages.getLast?
          = some { role := "assistant", content := "yo" } from rfl] at h
      cases h
      decide)
    (by
      intro m h
      rw [show reqAssist.messages.getLast?
          = some { role := "assistant", content := "yo" } from rfl] at h
      cases h
      decide)

/-! ### Retrieval deduplication and ranking (C6)

Invariant of the `content_map` association list: entry keys are pairwise
distinct and each entry's key is the content key of its stored node. -/

lemma dedupStep_keys (acc : List (String × MessageNode × Rat)) (row : MessageNode × Rat)
    (hpw : List.Pairwise (fun e1 e2 => e1.1 ≠ e2.1) acc)
    (hk : ∀ e ∈ acc, e.1 = content_key e.2.1.content) :
    List.Pairwise (fun e1 e2 => e1.1 ≠ e2.1) (dedupStep acc row) ∧
    (∀ e ∈ dedupStep acc row, e.1 = content_key e.2.1.content) := by
  unfold dedupStep
  by_cases hempty : content_key row.1.content = ""
  · rw [if_pos hempty]
    exact ⟨hpw, hk⟩
  rw [if_neg hempty]
  cases hfind : acc.find? (fun e => e.1 == content_key row.1.content) with
  | none =>
    constructor
    · rw [List.pairwise_append]
      refine ⟨hpw, List.pairwise_singleton _ _, ?_⟩
      intro x hx y hy
      rcases List.mem_singleton.mp hy with rfl
      have hxk := List.find?_eq_none.mp hfind x hx
      simpa using hxk
    · intro e he
      rcases List.mem_append.mp he with he1 | he2
      · exact hk e he1
      · rcases List.mem_singleton.mp he2 with rfl
        rfl
  | some e0 =>
    dsimp only
    by_cases hle : row.2 ≤ e0.2.2
    · rw [if_pos hle]
      exact ⟨hpw, hk⟩
    · rw [if_neg hle]
      have hfst : ∀ x : String × MessageNode × Rat,
          (if x.1 == content_key row.1.content
            then (content_key row.1.content, row) else x).1 = x.1 := by
        intro x
        by_cases hx : (x.1 == content_key row.1.content) = true
        · rw [if_pos hx]
          exact (beq_iff_eq.mp hx).symm
        · rw [if_neg hx]
      constructor
      · rw [List.pairwise_map]
        refine List.Pairwise.imp ?_ hpw
        intro a b hab
        rw [hfst a, hfst b]
        exact hab
      · intro e he
        rcases List.mem_map.mp he with ⟨x, hx, rfl⟩
        by_cases hxk : (x.1 == content_key row.1.content) = true
        · rw [if_pos hxk]
        · rw [if_neg hxk]
          exact hk x hx

lemma dedupRows_go_keys :
    ∀ (rows : List (MessageNode × Rat)) (acc : List (String × MessageNode × Rat)),
      List.Pairwise (fun e1 e2 => e1.1 ≠ e2.1) acc →
      (∀ e ∈ acc, e.1 = content_key e.2.1.content) →
      (List.Pairwise (fun e1 e2 => e1.1 ≠ e2.1) (rows.foldl dedupStep acc) ∧
        ∀ e ∈ rows.foldl dedupStep acc, e.1 = content_key e.2.1.content) := by
  intro rows
  induction rows with
  | nil => intro acc hpw hk; exact ⟨hpw, hk⟩
  | cons head tail ih =>
    intro acc hpw hk
    have hstep := dedupStep_keys acc head hpw hk
    exact ih (dedupStep acc head) hstep.1 hstep.2

/-- A known key keeps an entry with a score at least as high through one step. -/
lemma dedupStep_keeps (acc : List (String × MessageNode × Rat)) (row : MessageNode × Rat)
    (key : String) (s : Rat)
    (hpw : List.Pairwise (fun e1 e2 => e1.1 ≠ e2.1) acc)
    (h : ∃ e ∈ acc, e.1 = key ∧ s ≤ e.2.2) :
    ∃ e ∈ dedupStep acc row, e.1 = key ∧ s ≤ e.2.2 := by
  rcases h with ⟨e, he, hek, hes⟩
  unfold dedupStep
  by_cases hempty : content_key row.1.content = ""
  · rw [if_pos hempty]
    exact ⟨e, he, hek, hes⟩
  rw [if_neg hempty]
  cases hfind : acc.find? (fun x => x.1 == content_key row.1.content) with
  | none =>
    exact ⟨e, List.mem_append_left _ he, hek, hes⟩
  | some e0 =>
    dsimp only
    have he0mem : e0 ∈ acc := List.mem_of_find?_eq_some hfind
    have he0key : e0.1 = content_key row.1.content := by
      have h := List.find?_some hfind
      simpa using h
    by_cases hle : row.2 ≤ e0.2.2
    · rw [if_pos hle]
      exact ⟨e, he, hek, hes⟩
    · rw [if_neg hle]
      by_cases heq : (e.1 == content_key row.1.content) = true
      · have hee0 : e = e0 := by
          by_contra hne
          have hsymm : Symmetric (fun e1 e2 : String × MessageNode × Rat => e1.1 ≠ e2.1) :=
            fun _ _ hab hq => hab hq.symm
          exact (List.Pairwise.forall hsymm hpw he he0mem hne)
            (by rw [beq_iff_eq.mp heq, he0key])
        refine ⟨(content_key row.1.content, row), ?_, ?_, ?_⟩
        · exact List.mem_map.mpr ⟨e, he, by rw [if_pos heq]⟩
        · rw [← beq_iff_eq.mp heq, hek]
        · refine le_trans hes (le_trans ?_ (le_of_lt (not_le.mp hle)))
          rw [hee0]
      · refine ⟨e, ?_, hek, hes⟩
        exact List.mem_map.mpr ⟨e, he, by rw [if_neg heq]⟩

/-- Processing a row with a non-empty key installs an entry for that key with
a score at least the row's. -/
lemma dedupStep_adds (acc : List (String × MessageNode × Rat)) (row : MessageNode × Rat)
    (hne : ¬ content_key row.1.content = "") :
    ∃ e ∈ dedupStep acc row, e.1 = content_key row.1.content ∧ row.2 ≤ e.2.2 := by
  unfold dedupStep
  rw [if_neg hne]
  cases hfind : acc.find? (fun x => x.1 == content_key row.1.content) with
  | none =>
    exact ⟨(content_key row.1.content, row),
      List.mem_append_right _ (List.mem_singleton.mpr rfl), rfl, le_refl _⟩
  | some e0 =>
    dsimp only
    have he0key : e0.1 = content_key row.1.content := by
      have h := List.find?_some hfind
      simpa using h
    by_cases hle : row.2 ≤ e0.2.2
    · rw [if_pos hle]
      exact ⟨e0, List.mem_of_find?_eq_some hfind, he0key, hle⟩
    · rw [if_neg hle]
      refine ⟨(content_key row.1.content, row), ?_, rfl, le_refl _⟩
      refine List.mem_map.mpr ⟨e0, List.mem_of_find?_eq_some hfind, ?_⟩
      rw [if_pos (beq_iff_eq.mpr he0key)]

lemma dedupRows_go_keeps :
    ∀ (rows : List (MessageNode × Rat)) (acc : List (String × MessageNode × Rat))
      (key : String) (s : Rat),
      List.Pairwise (fun e1 e2 => e1.1 ≠ e2.1) acc →
      (∀ e ∈ acc, e.1 = content_key e.2.1.content) →
      (∃ e ∈ acc, e.1 = key ∧ s ≤ e.2.2) →
      ∃ e ∈ rows.foldl dedupStep acc, e.1 = key ∧ s ≤ e.2.2 := by
  intro rows
  induction rows with
  | nil => intro acc key s _ _ h; exact h
  | cons head tail ih =>
    intro acc key s hpw hk h
    have hstep := dedupStep_keys acc head hpw hk
    exact ih (dedupStep acc head) key s hstep.1 hstep.2
      (dedupStep_keeps acc head key s hpw h)

lemma dedupRows_keeps :
    ∀ (rows : List (MessageNode × Rat)) (acc : List (String × MessageNode × Rat)),
      List.Pairwise (fun e1 e2 => e1.1 ≠ e2.1) acc →
      (∀ e ∈ acc, e.1 = content_key e.2.1.content) →
      ∀ r ∈ rows, content_key r.1.content ≠ "" →
        ∃ e ∈ rows.foldl dedupStep acc, e.1 = content_key r.1.content ∧ r.2 ≤ e.2.2 := by
  intro rows
  induction rows with
  | nil => intro acc _ _ r hr; cases hr
  | cons head tail ih =>
    intro acc hpw hk r hr hne
    have hstep := dedupStep_keys acc head hpw hk
    rcases List.mem_cons.mp hr with rfl | htail
    · exact dedupRows_go_keeps tail (dedupStep acc r) (content_key r.1.content) r.2
        hstep.1 hstep.2 (dedupStep_adds acc r hne)
    · exact ih (dedupStep acc head) hstep.1 hstep.2 r htail hne

/-- C6 (amended): for the deduplicating implementation
(`src/repos/message.rs`), the returned list has at most `top_k` nodes, the
ranked list is sorted descending by score and projects to the returned nodes,
no two returned nodes share a lower-cased trimmed content key, and every row
with a non-empty key leaves an entry in the `content_map` whose score is at
least the row's (colliding candidates keep the higher score). -/
theorem c6_find_similar_properties (rows : List (MessageNode × Rat)) (top_k : Nat) :
    (find_similar_messages rows top_k).length ≤ top_k ∧
    List.Pairwise (fun a b : MessageNode × Rat => b.2 ≤ a.2)
      (find_similar_ranked rows top_k) ∧
    find_similar_messages rows top_k = (find_similar_ranked rows top_k).map
      (fun e => e.1) ∧
    List.Pairwise (fun n1 n2 : MessageNode =>
      content_key n1.content ≠ content_key n2.content)
      (find_similar_messages rows top_k) ∧
    (∀ r ∈ rows, content_key r.1.content ≠ "" →
      ∃ e ∈ dedupRows rows, e.1 = content_key r.1.content ∧ r.2 ≤ e.2.2) := by
  have hps : List.Pairwise (fun a b : MessageNode × Rat => b.2 ≤ a.2)
      (((dedupRows rows).map (fun e => e.2)).mergeSort
        (fun a b : MessageNode × Rat => b.2 ≤ a.2)) := by
    have hs := @List.sorted_mergeSort (MessageNode × Rat)
      (fun a b : MessageNode × Rat => b.2 ≤ a.2)
      (fun a b c h1 h2 => by
        simp only [decide_eq_true_eq] at h1 h2 ⊢
        exact le_trans h2 h1)
      (fun a b => by
        simp only [Bool.or_eq_true, decide_eq_true_eq]
        exact le_total b.2 a.2)
      ((dedupRows rows).map (fun e => e.2))
    exact hs.imp (fun h => by simpa using h)
  have hperm := List.mergeSort_perm ((dedupRows rows).map (fun e => e.2))
    (fun a b : MessageNode × Rat => b.2 ≤ a.2)
  have hd := dedupRows_go_keys rows [] List.Pairwise.nil (by intro e he; cases he)
  refine ⟨?_, ?_, rfl, ?_, ?_⟩
  · simp only [find_similar_messages, find_similar_ranked, List.length_map,
      List.length_take]
    exact Nat.min_le_left _ _
  · unfold find_similar_ranked
    exact List.Pairwise.sublist (List.take_sublist _ _) hps
  · have hvals : List.Pairwise (fun v1 v2 : MessageNode × Rat =>
        content_key v1.1.content ≠ content_key v2.1.content)
        ((dedupRows rows).map (fun e => e.2)) := by
      rw [List.pairwise_map]
      refine List.Pairwise.imp_of_mem ?_ hd.1
      intro a b ha hb hab
      rw [← hd.2 a ha, ← hd.2 b hb]
      exact hab
    have hsorted := hvals.perm hperm.symm (fun hxy h => hxy h.symm)
    have htake := List.Pairwise.sublist (List.take_sublist top_k _) hsorted
    unfold find_similar_messages find_similar_ranked
    rw [List.pairwise_map]
    exact htake
  · intro r hr hne
    exact dedupRows_keeps rows [] List.Pairwise.nil (by intro e he; cases he) r hr hne

/-- Counterexample to C6 as stated: the draft implementation of
`find_similar_messages` in `src/repos/message/neo4j_message.rs` performs no
content deduplication — two rows whose contents collide after lower-casing
and trimming are both returned. -/
theorem c6_counterexample_raw_draft_keeps_duplicates :
    find_similar_messages_raw [rowHiA, rowHiB] 2 = [rowHiA.1, rowHiB.1] ∧
    content_key rowHiA.1.content = content_key rowHiB.1.content := by
  constructor
  · simp +decide [find_similar_messages_raw, List.mergeSort, rowHiA, rowHiB]
  · decide

/-- Witness for the amended C6 at concrete rows. -/
theorem c6_find_similar_properties_witness :
    (find_similar_messages [rowHiA, rowHiB] 1).length ≤ 1 ∧
    (∃ e ∈ dedupRows [rowHiA, rowHiB],
      e.1 = content_key rowHiA.1.content ∧ rowHiA.2 ≤ e.2.2) :=
  ⟨(c6_find_similar_properties [rowHiA, rowHiB] 1).1,
   (c6_find_similar_properties [rowHiA, rowHiB] 1).2.2.2.2 rowHiA (by decide)
     (by decide)⟩
